import Mathlib

/-!
Verification of the property-schema subsystem of the `sigaldry` crate
(`src/runes.rs`, `src/security_properties.rs`, `src/error.rs`).

Embedding conventions:
- `u128` values are `Nat`; the sentinel `u128::MAX` is the constant `U128MAX`.
- `jiff::Zoned` and `jiff::civil::DateTime` are timestamps compared by their
  total order; they are embedded as `Int` (milliseconds since the Unix epoch,
  as the `CryptoPeriod` documentation describes).
- `BTreeMap<u32, Rune>` is a list of key/rune pairs kept sorted by key
  (`RuneMap`), with `mapInsert`, `mapLookup`, `mapRemove` mirroring
  `insert`, `get` and `remove`.
- A Rust method taking `mut self` and returning `Result<Self>` is embedded as
  a function returning `Except Error Unit × SchemaBuilder`: the second
  component is the state of `self` at the point the function returns, so an
  early `return Err(..)` yields the state accumulated so far.
- The `unreachable!()` branch of the `push_to_vec_rune!` macro is embedded as
  `Option.none`: a `none` result marks a panic.
-/

namespace Sigaldry

/-- Modelled from the spec: `provider::VariationType` is referenced from
`crate::provider`, whose definition of this type is not in the repository; the
spec names `Unique` as the most restrictive variation type and `Arbitrary` as
the least restrictive. No builder setter constructs it. -/
inductive VariationType where
  | Unique
  | Arbitrary
deriving DecidableEq, Repr

namespace Runes

/-- Mirrors `runes::SoftwareSideChannelResistance`. -/
inductive SoftwareSideChannelResistance where
  | ConstantTime
  | CacheTimingResistant
deriving DecidableEq, Repr

/-- Mirrors `runes::HardwareSideChannelResistance`. -/
inductive HardwareSideChannelResistance where
  | PowerAnalysisResistant
  | EmSideChannelResistant
deriving DecidableEq, Repr

/-- Mirrors `runes::IsolationLevel`. -/
inductive IsolationLevel where
  | SameProcess
  | SeparateProcess
  | VirtualMachine
  | DiscreteCpu
deriving DecidableEq, Repr

/-- Mirrors `runes::OriginIdentity` (a unit struct). -/
inductive OriginIdentity where
  | mk
deriving DecidableEq, Repr

/-- Mirrors `runes::SecurityCertification` (a unit struct). -/
inductive SecurityCertification where
  | mk
deriving DecidableEq, Repr

/-- Mirrors `runes::VariationStrategy`. -/
inductive VariationStrategy where
  | Automatic
  | CallerProvided (t : VariationType)
deriving DecidableEq, Repr

/-- Mirrors `runes::Rune`.  Numeric payloads (`u8`, `u16`, `u128`) are `Nat`;
timestamp payloads (`jiff::civil::DateTime`, `jiff::Zoned`) are `Int`. -/
inductive Rune where
  | PublicPrivateKeyPair
  | SecurityBits (bits : Nat)
  | MessageLimit (v : Nat)
  | EnforcedMessageLimit (v : Nat)
  | MessageSizeLimit (v : Nat)
  | EnforcedMessageSizeLimit (v : Nat)
  | TotalDataLimit (v : Nat)
  | EnforcedTotalDataLimit (v : Nat)
  | Confidentiality (end_time : Int)
  | Integrity (year : Nat)
  | Authentication (origin : OriginIdentity) (year : Nat)
  | CryptoPeriod (begin_ end_ : Int)
  | QuantumResistance
  | SoftwareSideChannelResistance (rs : List SoftwareSideChannelResistance)
  | HardwareSideChannelResistance (rs : List HardwareSideChannelResistance)
  | Isolated (level : IsolationLevel)
  | Certifications (cs : List SecurityCertification)
  | VariationStrategy (s : VariationStrategy)
deriving DecidableEq, Repr

/-- Mirrors `Rune::variant_index`: a numeric index for the variant, used for ordering
by discriminant.  Note that each limit pairs with its enforced counterpart. -/
def Rune.variant_index : Rune → Nat
  | .PublicPrivateKeyPair => 0
  | .SecurityBits _ => 1
  | .MessageLimit _ | .EnforcedMessageLimit _ => 2
  | .MessageSizeLimit _ | .EnforcedMessageSizeLimit _ => 3
  | .TotalDataLimit _ | .EnforcedTotalDataLimit _ => 4
  | .Confidentiality _ => 8
  | .Integrity _ => 9
  | .Authentication _ _ => 10
  | .CryptoPeriod _ _ => 11
  | .QuantumResistance => 12
  | .SoftwareSideChannelResistance _ => 13
  | .HardwareSideChannelResistance _ => 14
  | .Isolated _ => 15
  | .Certifications _ => 16
  | .VariationStrategy _ => 17

/-- Mirrors `runes::Schema`: the built property set, `runes: Vec<Rune>`.  Equality is
the derived one: componentwise list equality. -/
structure Schema where
  runes : List Rune
deriving DecidableEq, Repr

end Runes

/-- Mirrors `error::Error`.  String payloads are kept. -/
inductive Error where
  | UnsatisfiableRequirements (schema : Runes.Schema)
  | UnknownLabel
  | CommunicationError (msg : String)
  | InternalError (msg : String)
  | InvalidVariation (msg : String)
  | InvalidMessageLimit (msg : String)
  | InvalidMessageSizeLimit (msg : String)
  | InvalidTotalDataLimit (msg : String)
  | InvalidCryptoPeriod (msg : String)
  | MessageTooLong (msg : String)
  | TotalDataTooLong (msg : String)
  | CryptoPeriodTooSoon (msg : String)
  | CryptoPeriodTooLate (msg : String)
  | VariationInvalid (msg : String)
  | VariationTypeInvalid (msg : String)
deriving DecidableEq, Repr

namespace Runes

/-- Mirrors `u128::MAX`, the `Unbounded` sentinel (2 ^ 128 - 1). -/
def U128MAX : Nat := 2 ^ 128 - 1

/-- Mirrors `BTreeMap<u32, Rune>`: key/rune pairs sorted strictly by key. -/
abbrev RuneMap := List (Nat × Rune)

/-- Mirrors `BTreeMap::insert`, keeping the list sorted by key (the updated map). -/
def mapInsert : RuneMap → Nat → Rune → RuneMap
  | [], k, r => [(k, r)]
  | (k', r') :: rest, k, r =>
    if k < k' then (k, r) :: (k', r') :: rest
    else if k = k' then (k, r) :: rest
    else (k', r') :: mapInsert rest k r

/-- Mirrors `BTreeMap::get`. -/
def mapLookup : RuneMap → Nat → Option Rune
  | [], _ => none
  | (k', r') :: rest, k => if k = k' then some r' else mapLookup rest k

/-- Mirrors `BTreeMap::remove` (drops the entry with the given key, if present). -/
def mapRemove : RuneMap → Nat → RuneMap
  | [], _ => []
  | (k', r') :: rest, k => if k = k' then rest else (k', r') :: mapRemove rest k

/-- Mirrors `BTreeMap::insert` returns the value previously at the key; this pairs
that previous value with the updated map. -/
def mapInsertGet (m : RuneMap) (k : Nat) (r : Rune) : Option Rune × RuneMap :=
  (mapLookup m k, mapInsert m k r)

/-- Mirrors `runes::DEFAULT_RUNES`: default message limit 2¹⁶, message size limit 2¹⁶,
total data limit 2³². -/
def DEFAULT_RUNES : List Rune :=
  [Rune.MessageLimit (2 ^ 16), Rune.MessageSizeLimit (2 ^ 16),
   Rune.TotalDataLimit (2 ^ 32)]

/-- Mirrors `runes::SchemaBuilder`: `runes: BTreeMap<u32, Rune>`. -/
structure SchemaBuilder where
  runes : RuneMap
deriving DecidableEq, Repr

/-- Mirrors `SchemaBuilder::new`: collects `DEFAULT_RUNES` keyed by variant index. -/
def SchemaBuilder.new : SchemaBuilder :=
  ⟨DEFAULT_RUNES.foldl (fun m r => mapInsert m r.variant_index r) []⟩

/-- Mirrors `SchemaBuilder::build`: `self.runes.into_values().collect()`. -/
def SchemaBuilder.build (b : SchemaBuilder) : Schema :=
  ⟨b.runes.map Prod.snd⟩

/-- Mirrors `SchemaBuilder::public_private_key_pair`. -/
def SchemaBuilder.public_private_key_pair (b : SchemaBuilder) : SchemaBuilder :=
  let rune := Rune.PublicPrivateKeyPair
  ⟨mapInsert b.runes rune.variant_index rune⟩

/-- Mirrors `SchemaBuilder::confidentiality`.  The external time computation
`P::get_current_time().datetime().checked_add(duration)` is passed in as its
outcome `end_time?` (`Except.error e` embeds a `jiff::Error` displaying as
`e`); `Error::from` wraps it as `InternalError`. -/
def SchemaBuilder.confidentiality (b : SchemaBuilder) (end_time? : Except String Int) :
    Except Error Unit × SchemaBuilder :=
  match end_time? with
  | Except.error e => (Except.error (Error.InternalError ("Time error:" ++ e)), b)
  | Except.ok end_time =>
    let rune := Rune.Confidentiality end_time
    (Except.ok (), ⟨mapInsert b.runes rune.variant_index rune⟩)

/-- Mirrors `SchemaBuilder::security_bits`. -/
def SchemaBuilder.security_bits (b : SchemaBuilder) (security_bits : Nat) : SchemaBuilder :=
  let rune := Rune.SecurityBits security_bits
  ⟨mapInsert b.runes rune.variant_index rune⟩

/-- Mirrors `SchemaBuilder::message_limit`. -/
def SchemaBuilder.message_limit (b : SchemaBuilder) (message_limit : Nat) :
    Except Error Unit × SchemaBuilder :=
  if message_limit = U128MAX then
    (Except.error (Error.InvalidMessageLimit "Message limit cannot be unbounded"), b)
  else
    let rune := Rune.MessageLimit message_limit
    (Except.ok (), ⟨mapInsert b.runes rune.variant_index rune⟩)

/-- Mirrors `SchemaBuilder::enforced_message_limit`. -/
def SchemaBuilder.enforced_message_limit (b : SchemaBuilder) (enforced_message_limit : Nat) :
    Except Error Unit × SchemaBuilder :=
  if enforced_message_limit = U128MAX then
    (Except.error (Error.InvalidMessageLimit "Message limit cannot be unbounded"), b)
  else
    let rune := Rune.EnforcedMessageLimit enforced_message_limit
    (Except.ok (), ⟨mapInsert b.runes rune.variant_index rune⟩)

/-- Mirrors `SchemaBuilder::message_size_limit`. -/
def SchemaBuilder.message_size_limit (b : SchemaBuilder) (message_size_limit : Nat) :
    Except Error Unit × SchemaBuilder :=
  if message_size_limit = U128MAX then
    (Except.error (Error.InvalidMessageSizeLimit "Message size limit cannot be unbounded"), b)
  else
    let rune := Rune.MessageSizeLimit message_size_limit
    (Except.ok (), ⟨mapInsert b.runes rune.variant_index rune⟩)

/-- Mirrors `SchemaBuilder::enforced_message_size_limit`. -/
def SchemaBuilder.enforced_message_size_limit (b : SchemaBuilder)
    (enforced_message_size_limit : Nat) : Except Error Unit × SchemaBuilder :=
  if enforced_message_size_limit = U128MAX then
    (Except.error (Error.InvalidMessageSizeLimit "Message size limit cannot be unbounded"), b)
  else
    let rune := Rune.EnforcedMessageSizeLimit enforced_message_size_limit
    (Except.ok (), ⟨mapInsert b.runes rune.variant_index rune⟩)

/-- Mirrors `SchemaBuilder::total_data_limit`. -/
def SchemaBuilder.total_data_limit (b : SchemaBuilder) (total_data_limit : Nat) :
    Except Error Unit × SchemaBuilder :=
  if total_data_limit = U128MAX then
    (Except.error (Error.InvalidTotalDataLimit "Total data limit cannot be unbounded"), b)
  else
    let rune := Rune.TotalDataLimit total_data_limit
    (Except.ok (), ⟨mapInsert b.runes rune.variant_index rune⟩)

/-- Mirrors `SchemaBuilder::enforced_total_data_limit`. -/
def SchemaBuilder.enforced_total_data_limit (b : SchemaBuilder)
    (enforced_total_data_limit : Nat) : Except Error Unit × SchemaBuilder :=
  if enforced_total_data_limit = U128MAX then
    (Except.error (Error.InvalidTotalDataLimit "Total data limit cannot be unbounded"), b)
  else
    let rune := Rune.EnforcedTotalDataLimit enforced_total_data_limit
    (Except.ok (), ⟨mapInsert b.runes rune.variant_index rune⟩)

/-- Mirrors `SchemaBuilder::crypto_period`.  `Zoned` timestamps are `Int`; their
display in the message is embedded as `toString`. -/
def SchemaBuilder.crypto_period (b : SchemaBuilder) (begin_ end_ : Int) :
    Except Error Unit × SchemaBuilder :=
  if begin_ ≥ end_ then
    (Except.error (Error.InvalidCryptoPeriod
      ("Begin " ++ toString begin_ ++ " must be before end " ++ toString end_)), b)
  else
    let rune := Rune.CryptoPeriod begin_ end_
    (Except.ok (), ⟨mapInsert b.runes rune.variant_index rune⟩)

/-- Mirrors `SchemaBuilder::quantum_resistance`. -/
def SchemaBuilder.quantum_resistance (b : SchemaBuilder) (quantum_resistance : Bool) :
    SchemaBuilder :=
  if quantum_resistance then
    let rune := Rune.QuantumResistance
    ⟨mapInsert b.runes rune.variant_index rune⟩
  else
    ⟨mapRemove b.runes Rune.QuantumResistance.variant_index⟩

/-- Expansion of `push_to_vec_rune!` at `SoftwareSideChannelResistance`:
insert a one-element vector, and if a rune was already present at the index
merge the new item into its vector (skipping duplicates) and write back.
`none` is the `unreachable!()` panic branch. -/
def pushSoftwareSideChannelResistance (runes : RuneMap)
    (item : SoftwareSideChannelResistance) : Option RuneMap :=
  let rune := Rune.SoftwareSideChannelResistance [item]
  let index := rune.variant_index
  match mapInsertGet runes index rune with
  | (some (Rune.SoftwareSideChannelResistance vec), m) =>
    let vec := if vec.contains item then vec else vec ++ [item]
    some (mapInsert m index (Rune.SoftwareSideChannelResistance vec))
  | (none, m) => some m
  | (some _, _) => none

/-- Expansion of `push_to_vec_rune!` at `HardwareSideChannelResistance`. -/
def pushHardwareSideChannelResistance (runes : RuneMap)
    (item : HardwareSideChannelResistance) : Option RuneMap :=
  let rune := Rune.HardwareSideChannelResistance [item]
  let index := rune.variant_index
  match mapInsertGet runes index rune with
  | (some (Rune.HardwareSideChannelResistance vec), m) =>
    let vec := if vec.contains item then vec else vec ++ [item]
    some (mapInsert m index (Rune.HardwareSideChannelResistance vec))
  | (none, m) => some m
  | (some _, _) => none

/-- Expansion of `push_to_vec_rune!` at `Certifications`. -/
def pushCertifications (runes : RuneMap) (item : SecurityCertification) :
    Option RuneMap :=
  let rune := Rune.Certifications [item]
  let index := rune.variant_index
  match mapInsertGet runes index rune with
  | (some (Rune.Certifications vec), m) =>
    let vec := if vec.contains item then vec else vec ++ [item]
    some (mapInsert m index (Rune.Certifications vec))
  | (none, m) => some m
  | (some _, _) => none

/-- Mirrors `SchemaBuilder::software_side_channel_resistance` (`none` = panic). -/
def SchemaBuilder.software_side_channel_resistance (b : SchemaBuilder)
    (resistance : SoftwareSideChannelResistance) : Option SchemaBuilder :=
  (pushSoftwareSideChannelResistance b.runes resistance).map SchemaBuilder.mk

/-- Mirrors `SchemaBuilder::hardware_side_channel_resistance` (`none` = panic). -/
def SchemaBuilder.hardware_side_channel_resistance (b : SchemaBuilder)
    (resistance : HardwareSideChannelResistance) : Option SchemaBuilder :=
  (pushHardwareSideChannelResistance b.runes resistance).map SchemaBuilder.mk

/-- Mirrors `SchemaBuilder::isolated`. -/
def SchemaBuilder.isolated (b : SchemaBuilder) (isolation_level : IsolationLevel) :
    SchemaBuilder :=
  let rune := Rune.Isolated isolation_level
  ⟨mapInsert b.runes rune.variant_index rune⟩

/-- Mirrors `SchemaBuilder::certification` (`none` = panic). -/
def SchemaBuilder.certification (b : SchemaBuilder)
    (certification : SecurityCertification) : Option SchemaBuilder :=
  (pushCertifications b.runes certification).map SchemaBuilder.mk

/-- One builder setter call, with its argument.  `confidentiality` carries the
outcome of the external time computation. -/
inductive BuilderOp where
  | public_private_key_pair
  | confidentiality (end_time? : Except String Int)
  | security_bits (v : Nat)
  | message_limit (v : Nat)
  | enforced_message_limit (v : Nat)
  | message_size_limit (v : Nat)
  | enforced_message_size_limit (v : Nat)
  | total_data_limit (v : Nat)
  | enforced_total_data_limit (v : Nat)
  | crypto_period (begin_ end_ : Int)
  | quantum_resistance (q : Bool)
  | software_side_channel_resistance (r : SoftwareSideChannelResistance)
  | hardware_side_channel_resistance (r : HardwareSideChannelResistance)
  | isolated (l : IsolationLevel)
  | certification (c : SecurityCertification)

/-- Run one setter on the builder.  A fallible setter that returns `Err`
leaves the builder in the state it had at the early return (the second
component of the pair); `none` is a panic in `push_to_vec_rune!`. -/
def applyOp (b : SchemaBuilder) : BuilderOp → Option SchemaBuilder
  | .public_private_key_pair => some b.public_private_key_pair
  | .confidentiality e => some (b.confidentiality e).2
  | .security_bits v => some (b.security_bits v)
  | .message_limit v => some (b.message_limit v).2
  | .enforced_message_limit v => some (b.enforced_message_limit v).2
  | .message_size_limit v => some (b.message_size_limit v).2
  | .enforced_message_size_limit v => some (b.enforced_message_size_limit v).2
  | .total_data_limit v => some (b.total_data_limit v).2
  | .enforced_total_data_limit v => some (b.enforced_total_data_limit v).2
  | .crypto_period begin_ end_ => some (b.crypto_period begin_ end_).2
  | .quantum_resistance q => some (b.quantum_resistance q)
  | .software_side_channel_resistance r => b.software_side_channel_resistance r
  | .hardware_side_channel_resistance r => b.hardware_side_channel_resistance r
  | .isolated l => some (b.isolated l)
  | .certification c => b.certification c

/-- Run a sequence of setter calls; `none` as soon as one panics. -/
def applyOps (b : SchemaBuilder) : List BuilderOp → Option SchemaBuilder
  | [] => some b
  | op :: ops =>
    match applyOp b op with
    | some b' => applyOps b' ops
    | none => none

/-- Well-formedness of the builder map: keys strictly increasing (the
`BTreeMap` representation invariant) and every rune stored under its own
variant index. -/
def WF (m : RuneMap) : Prop :=
  m.Pairwise (fun a b => a.1 < b.1) ∧ ∀ p ∈ m, p.2.variant_index = p.1

instance : DecidablePred WF := by
  intro m
  unfold WF
  infer_instance

/-- Duplicate-free union: fold the items into the accumulator, appending each
item only when no equal item is already present.  This is the specification
of the vector-setter merge. -/
def unionByValue {α : Type} [DecidableEq α] (acc : List α) (items : List α) : List α :=
  items.foldl (fun acc x => if acc.contains x then acc else acc ++ [x]) acc

/-- Setters that write to one of the three default-populated keys (the
message-limit, message-size-limit and total-data-limit families, keys 2, 3
and 4). -/
def touchesDefaultKind : BuilderOp → Bool
  | .message_limit _ | .enforced_message_limit _ => true
  | .message_size_limit _ | .enforced_message_size_limit _ => true
  | .total_data_limit _ | .enforced_total_data_limit _ => true
  | _ => false

end Runes

namespace SecurityProperties

/-- Mirrors `security_properties::MessageLimit`. -/
inductive MessageLimit where
  | Unbounded
  | Limited (v : Nat)
deriving DecidableEq, Repr

/-- Mirrors `security_properties::TotalDataLimit`. -/
inductive TotalDataLimit where
  | Unbounded
  | Limited (v : Nat)
deriving DecidableEq, Repr

/-- Mirrors `security_properties::SoftwareSideChannelResistances`. -/
inductive SoftwareSideChannelResistances where
  | ConstantTime
  | CacheTimingResistant
deriving DecidableEq, Repr

/-- Mirrors `security_properties::HardwareSideChannelResistances`. -/
inductive HardwareSideChannelResistances where
  | PowerAnalysisResistant
  | EmSideChannelResistant
deriving DecidableEq, Repr

/-- Mirrors `security_properties::IsolationLevel`. -/
inductive IsolationLevel where
  | SeparateProcess
  | VirtualMachine
  | DiscreteCpu
deriving DecidableEq, Repr

/-- Mirrors `security_properties::OriginIdentity` (a unit struct). -/
inductive OriginIdentity where
  | mk
deriving DecidableEq, Repr

/-- Mirrors `security_properties::SecurityCertification` (a unit struct). -/
inductive SecurityCertification where
  | mk
deriving DecidableEq, Repr

/-- Mirrors `security_properties::SecurityProperty`. -/
inductive SecurityProperty where
  | PublicPrivateKeyPair
  | SharedSecret
  | SecurityBits (v : Nat)
  | MessageLimit (v : MessageLimit)
  | TotalDataLimit (v : TotalDataLimit)
  | Confidentiality
  | Integrity
  | Authentication (origin : OriginIdentity)
  | QuantumResistance
  | SoftwareSideChannelResistance (r : SoftwareSideChannelResistances)
  | HardwareSideChannelResistance (r : HardwareSideChannelResistances)
  | Isolated (level : IsolationLevel)
  | Certifications (cs : List SecurityCertification)
deriving DecidableEq, Repr

/-- Mirrors `security_properties::SecurityPropertySet`: `properties: Vec<SecurityProperty>`
with derived equality (componentwise list equality); `new` stores the given
vector unchanged. -/
structure SecurityPropertySet where
  properties : List SecurityProperty
deriving DecidableEq, Repr

/-- Mirrors `SecurityPropertySet::new`. -/
def SecurityPropertySet.new (properties : List SecurityProperty) : SecurityPropertySet :=
  ⟨properties⟩

end SecurityProperties

namespace Runes

theorem mapLookup_mapInsert_self (m : RuneMap) (k : Nat) (r : Rune) :
    mapLookup (mapInsert m k r) k = some r := by
  induction m with
  | nil => simp [mapInsert, mapLookup]
  | cons p rest ih =>
    obtain ⟨k', r'⟩ := p
    by_cases h1 : k < k'
    · simp [mapInsert, h1, mapLookup]
    · by_cases h2 : k = k'
      · simp [mapInsert, h1, h2, mapLookup]
      · simp [mapInsert, h1, h2, mapLookup, ih]

theorem mapLookup_mapInsert_ne (m : RuneMap) (k k' : Nat) (r : Rune) (h : k' ≠ k) :
    mapLookup (mapInsert m k r) k' = mapLookup m k' := by
  induction m with
  | nil => simp [mapInsert, mapLookup, h]
  | cons p rest ih =>
    obtain ⟨k0, r0⟩ := p
    by_cases h1 : k < k0
    · simp [mapInsert, h1, mapLookup, h]
    · by_cases h2 : k = k0
      · subst h2
        simp [mapInsert, h1, mapLookup, h]
      · simp [mapInsert, h1, h2, mapLookup, ih]

theorem mem_mapInsert (m : RuneMap) (k : Nat) (r : Rune) (p : Nat × Rune)
    (h : p ∈ mapInsert m k r) : p = (k, r) ∨ p ∈ m := by
  induction m with
  | nil =>
    simp only [mapInsert, List.mem_singleton] at h
    exact Or.inl h
  | cons q rest ih =>
    obtain ⟨k0, r0⟩ := q
    by_cases h1 : k < k0
    · simp only [mapInsert, if_pos h1, List.mem_cons] at h
      simp only [List.mem_cons]
      tauto
    · by_cases h2 : k = k0
      · simp only [mapInsert, if_neg h1, if_pos h2, List.mem_cons] at h
        simp only [List.mem_cons]
        tauto
      · simp only [mapInsert, if_neg h1, if_neg h2, List.mem_cons] at h
        simp only [List.mem_cons]
        rcases h with h | h
        · tauto
        · rcases ih h with h' | h' <;> tauto

theorem pairwise_mapInsert (m : RuneMap) (k : Nat) (r : Rune)
    (h : m.Pairwise (fun a b => a.1 < b.1)) :
    (mapInsert m k r).Pairwise (fun a b => a.1 < b.1) := by
  induction m with
  | nil => simp [mapInsert]
  | cons q rest ih =>
    obtain ⟨k0, r0⟩ := q
    rw [List.pairwise_cons] at h
    obtain ⟨hall, hrest⟩ := h
    by_cases h1 : k < k0
    · simp only [mapInsert, if_pos h1]
      refine List.Pairwise.cons ?_ (List.Pairwise.cons hall hrest)
      intro x hx
      rcases List.mem_cons.mp hx with rfl | hx
      · exact h1
      · exact lt_trans h1 (hall x hx)
    · by_cases h2 : k = k0
      · subst h2
        simp only [mapInsert, if_neg h1, if_pos rfl]
        exact List.Pairwise.cons hall hrest
      · simp only [mapInsert, if_neg h1, if_neg h2]
        refine List.Pairwise.cons ?_ (ih hrest)
        intro x hx
        rcases mem_mapInsert rest k r x hx with rfl | hx
        · simp only []
          omega
        · exact hall x hx

theorem wf_mapInsert (m : RuneMap) (r : Rune) (h : WF m) :
    WF (mapInsert m r.variant_index r) := by
  obtain ⟨hs, hk⟩ := h
  refine ⟨pairwise_mapInsert _ _ _ hs, ?_⟩
  intro p hp
  rcases mem_mapInsert _ _ _ _ hp with rfl | hp
  · rfl
  · exact hk p hp

theorem mem_mapRemove (m : RuneMap) (k : Nat) (p : Nat × Rune)
    (h : p ∈ mapRemove m k) : p ∈ m := by
  induction m with
  | nil => simp [mapRemove] at h
  | cons q rest ih =>
    obtain ⟨k0, r0⟩ := q
    by_cases h1 : k = k0
    · simp only [mapRemove, if_pos h1] at h
      exact List.mem_cons_of_mem _ h
    · simp only [mapRemove, if_neg h1, List.mem_cons] at h
      rcases h with rfl | h
      · exact List.mem_cons_self _ _
      · exact List.mem_cons_of_mem _ (ih h)

theorem mapRemove_sublist (m : RuneMap) (k : Nat) :
    List.Sublist (mapRemove m k) m := by
  induction m with
  | nil => simp [mapRemove]
  | cons q rest ih =>
    obtain ⟨k0, r0⟩ := q
    by_cases h1 : k = k0
    · simp only [mapRemove, if_pos h1]
      exact List.sublist_cons_self _ _
    · simp only [mapRemove, if_neg h1]
      exact List.Sublist.cons₂ _ ih

theorem wf_mapRemove (m : RuneMap) (k : Nat) (h : WF m) : WF (mapRemove m k) :=
  ⟨List.Pairwise.sublist (mapRemove_sublist m k) h.1,
   fun p hp => h.2 p (mem_mapRemove m k p hp)⟩

theorem mapLookup_eq_none (m : RuneMap) (k : Nat) (h : ∀ p ∈ m, k ≠ p.1) :
    mapLookup m k = none := by
  induction m with
  | nil => rfl
  | cons q rest ih =>
    obtain ⟨k0, r0⟩ := q
    have hne : k ≠ k0 := h (k0, r0) (List.mem_cons_self _ _)
    simp only [mapLookup, if_neg hne]
    exact ih fun p hp => h p (List.mem_cons_of_mem _ hp)

theorem mapLookup_mapRemove_self (m : RuneMap) (k : Nat)
    (hs : m.Pairwise (fun a b => a.1 < b.1)) :
    mapLookup (mapRemove m k) k = none := by
  induction m with
  | nil => rfl
  | cons q rest ih =>
    obtain ⟨k0, r0⟩ := q
    rw [List.pairwise_cons] at hs
    by_cases h1 : k = k0
    · subst h1
      simp only [mapRemove, if_pos rfl]
      exact mapLookup_eq_none rest k fun p hp => Nat.ne_of_lt (hs.1 p hp)
    · simp only [mapRemove, if_neg h1, mapLookup, if_neg h1]
      exact ih hs.2

theorem mapLookup_mapRemove_ne (m : RuneMap) (k k' : Nat) (h : k' ≠ k) :
    mapLookup (mapRemove m k) k' = mapLookup m k' := by
  induction m with
  | nil => rfl
  | cons q rest ih =>
    obtain ⟨k0, r0⟩ := q
    by_cases h1 : k = k0
    · subst h1
      simp [mapRemove, mapLookup, h]
    · by_cases h2 : k' = k0
      · simp only [mapRemove, if_neg h1, mapLookup, if_pos h2]
      · simp only [mapRemove, if_neg h1, mapLookup, if_neg h2]
        exact ih

theorem mapRemove_of_lookup_none (m : RuneMap) (k : Nat)
    (h : mapLookup m k = none) : mapRemove m k = m := by
  induction m with
  | nil => rfl
  | cons q rest ih =>
    obtain ⟨k0, r0⟩ := q
    by_cases h1 : k = k0
    · simp [mapLookup, if_pos h1] at h
    · simp only [mapLookup, if_neg h1] at h
      simp only [mapRemove, if_neg h1, ih h]

theorem mapLookup_of_mem (m : RuneMap) (p : Nat × Rune)
    (hs : m.Pairwise (fun a b => a.1 < b.1)) (hp : p ∈ m) :
    mapLookup m p.1 = some p.2 := by
  induction m with
  | nil => cases hp
  | cons q rest ih =>
    obtain ⟨k0, r0⟩ := q
    rw [List.pairwise_cons] at hs
    rcases List.mem_cons.mp hp with rfl | hp
    · simp [mapLookup]
    · have hne : p.1 ≠ k0 := by
        have := hs.1 p hp
        omega
      simp only [mapLookup, if_neg hne]
      exact ih hs.2 hp

theorem mem_of_mapLookup (m : RuneMap) (k : Nat) (r : Rune)
    (h : mapLookup m k = some r) : (k, r) ∈ m := by
  induction m with
  | nil => simp [mapLookup] at h
  | cons q rest ih =>
    obtain ⟨k0, r0⟩ := q
    by_cases h1 : k = k0
    · subst h1
      simp only [mapLookup] at h
      simp at h
      subst h
      exact List.mem_cons_self _ _
    · simp only [mapLookup, if_neg h1] at h
      exact List.mem_cons_of_mem _ (ih h)

theorem mem_build_iff (b : SchemaBuilder) (h : WF b.runes) (r : Rune) :
    r ∈ b.build.runes ↔ mapLookup b.runes r.variant_index = some r := by
  constructor
  · intro hr
    simp only [SchemaBuilder.build, List.mem_map] at hr
    obtain ⟨p, hp, rfl⟩ := hr
    rw [h.2 p hp]
    exact mapLookup_of_mem _ p h.1 hp
  · intro hr
    simp only [SchemaBuilder.build, List.mem_map]
    exact ⟨(r.variant_index, r), mem_of_mapLookup _ _ _ hr, rfl⟩

theorem mapInsert_mapInsert (m : RuneMap) (k : Nat) (r r' : Rune) :
    mapInsert (mapInsert m k r) k r' = mapInsert m k r' := by
  induction m with
  | nil => simp [mapInsert]
  | cons q rest ih =>
    obtain ⟨k0, r0⟩ := q
    by_cases h1 : k < k0
    · simp [mapInsert, h1, lt_irrefl]
    · by_cases h2 : k = k0
      · subst h2
        simp [mapInsert, h1, lt_irrefl]
      · simp [mapInsert, h1, h2, ih]

theorem eq_software_of_variant_index (r : Rune) (h : r.variant_index = 13) :
    ∃ vec, r = Rune.SoftwareSideChannelResistance vec := by
  cases r <;> simp_all [Rune.variant_index]

theorem eq_hardware_of_variant_index (r : Rune) (h : r.variant_index = 14) :
    ∃ vec, r = Rune.HardwareSideChannelResistance vec := by
  cases r <;> simp_all [Rune.variant_index]

theorem eq_certifications_of_variant_index (r : Rune) (h : r.variant_index = 16) :
    ∃ vec, r = Rune.Certifications vec := by
  cases r <;> simp_all [Rune.variant_index]

theorem pushSoftware_none (runes : RuneMap) (item : SoftwareSideChannelResistance)
    (h : mapLookup runes 13 = none) :
    pushSoftwareSideChannelResistance runes item =
      some (mapInsert runes 13 (Rune.SoftwareSideChannelResistance [item])) := by
  simp only [pushSoftwareSideChannelResistance, mapInsertGet, Rune.variant_index]
  rw [h]

theorem pushSoftware_some (runes : RuneMap) (item : SoftwareSideChannelResistance)
    (vec : List SoftwareSideChannelResistance)
    (h : mapLookup runes 13 = some (Rune.SoftwareSideChannelResistance vec)) :
    pushSoftwareSideChannelResistance runes item =
      some (mapInsert runes 13 (Rune.SoftwareSideChannelResistance
        (if vec.contains item then vec else vec ++ [item]))) := by
  simp only [pushSoftwareSideChannelResistance, mapInsertGet, Rune.variant_index]
  rw [h]
  exact congrArg some (mapInsert_mapInsert runes _ _ _)

theorem pushHardware_none (runes : RuneMap) (item : HardwareSideChannelResistance)
    (h : mapLookup runes 14 = none) :
    pushHardwareSideChannelResistance runes item =
      some (mapInsert runes 14 (Rune.HardwareSideChannelResistance [item])) := by
  simp only [pushHardwareSideChannelResistance, mapInsertGet, Rune.variant_index]
  rw [h]

theorem pushHardware_some (runes : RuneMap) (item : HardwareSideChannelResistance)
    (vec : List HardwareSideChannelResistance)
    (h : mapLookup runes 14 = some (Rune.HardwareSideChannelResistance vec)) :
    pushHardwareSideChannelResistance runes item =
      some (mapInsert runes 14 (Rune.HardwareSideChannelResistance
        (if vec.contains item then vec else vec ++ [item]))) := by
  simp only [pushHardwareSideChannelResistance, mapInsertGet, Rune.variant_index]
  rw [h]
  exact congrArg some (mapInsert_mapInsert runes _ _ _)

theorem pushCertifications_none (runes : RuneMap) (item : SecurityCertification)
    (h : mapLookup runes 16 = none) :
    pushCertifications runes item =
      some (mapInsert runes 16 (Rune.Certifications [item])) := by
  simp only [pushCertifications, mapInsertGet, Rune.variant_index]
  rw [h]

theorem pushCertifications_some (runes : RuneMap) (item : SecurityCertification)
    (vec : List SecurityCertification)
    (h : mapLookup runes 16 = some (Rune.Certifications vec)) :
    pushCertifications runes item =
      some (mapInsert runes 16 (Rune.Certifications
        (if vec.contains item then vec else vec ++ [item]))) := by
  simp only [pushCertifications, mapInsertGet, Rune.variant_index]
  rw [h]
  exact congrArg some (mapInsert_mapInsert runes _ _ _)

theorem pushSoftware_wf (runes : RuneMap) (item : SoftwareSideChannelResistance)
    (h : WF runes) :
    ∃ m', pushSoftwareSideChannelResistance runes item = some m' ∧ WF m' := by
  cases hl : mapLookup runes 13 with
  | none =>
    exact ⟨_, pushSoftware_none runes item hl,
      wf_mapInsert runes (Rune.SoftwareSideChannelResistance [item]) h⟩
  | some r =>
    obtain ⟨vec, rfl⟩ :=
      eq_software_of_variant_index r (h.2 (13, r) (mem_of_mapLookup _ _ _ hl))
    exact ⟨_, pushSoftware_some runes item vec hl,
      wf_mapInsert runes (Rune.SoftwareSideChannelResistance _) h⟩

theorem pushHardware_wf (runes : RuneMap) (item : HardwareSideChannelResistance)
    (h : WF runes) :
    ∃ m', pushHardwareSideChannelResistance runes item = some m' ∧ WF m' := by
  cases hl : mapLookup runes 14 with
  | none =>
    exact ⟨_, pushHardware_none runes item hl,
      wf_mapInsert runes (Rune.HardwareSideChannelResistance [item]) h⟩
  | some r =>
    obtain ⟨vec, rfl⟩ :=
      eq_hardware_of_variant_index r (h.2 (14, r) (mem_of_mapLookup _ _ _ hl))
    exact ⟨_, pushHardware_some runes item vec hl,
      wf_mapInsert runes (Rune.HardwareSideChannelResistance _) h⟩

theorem pushCertifications_wf (runes : RuneMap) (item : SecurityCertification)
    (h : WF runes) :
    ∃ m', pushCertifications runes item = some m' ∧ WF m' := by
  cases hl : mapLookup runes 16 with
  | none =>
    exact ⟨_, pushCertifications_none runes item hl,
      wf_mapInsert runes (Rune.Certifications [item]) h⟩
  | some r =>
    obtain ⟨vec, rfl⟩ :=
      eq_certifications_of_variant_index r (h.2 (16, r) (mem_of_mapLookup _ _ _ hl))
    exact ⟨_, pushCertifications_some runes item vec hl,
      wf_mapInsert runes (Rune.Certifications _) h⟩

theorem applyOp_wf (b : SchemaBuilder) (op : BuilderOp) (h : WF b.runes) :
    ∃ b', applyOp b op = some b' ∧ WF b'.runes := by
  cases op with
  | public_private_key_pair =>
    exact ⟨_, rfl, wf_mapInsert b.runes Rune.PublicPrivateKeyPair h⟩
  | confidentiality e =>
    cases e with
    | error s => exact ⟨b, rfl, h⟩
    | ok t => exact ⟨_, rfl, wf_mapInsert b.runes (Rune.Confidentiality t) h⟩
  | security_bits v =>
    exact ⟨_, rfl, wf_mapInsert b.runes (Rune.SecurityBits v) h⟩
  | message_limit v =>
    refine ⟨_, rfl, ?_⟩
    by_cases hv : v = U128MAX
    · simp only [SchemaBuilder.message_limit, if_pos hv]
      exact h
    · simp only [SchemaBuilder.message_limit, if_neg hv]
      exact wf_mapInsert b.runes (Rune.MessageLimit v) h
  | enforced_message_limit v =>
    refine ⟨_, rfl, ?_⟩
    by_cases hv : v = U128MAX
    · simp only [SchemaBuilder.enforced_message_limit, if_pos hv]
      exact h
    · simp only [SchemaBuilder.enforced_message_limit, if_neg hv]
      exact wf_mapInsert b.runes (Rune.EnforcedMessageLimit v) h
  | message_size_limit v =>
    refine ⟨_, rfl, ?_⟩
    by_cases hv : v = U128MAX
    · simp only [SchemaBuilder.message_size_limit, if_pos hv]
      exact h
    · simp only [SchemaBuilder.message_size_limit, if_neg hv]
      exact wf_mapInsert b.runes (Rune.MessageSizeLimit v) h
  | enforced_message_size_limit v =>
    refine ⟨_, rfl, ?_⟩
    by_cases hv : v = U128MAX
    · simp only [SchemaBuilder.enforced_message_size_limit, if_pos hv]
      exact h
    · simp only [SchemaBuilder.enforced_message_size_limit, if_neg hv]
      exact wf_mapInsert b.runes (Rune.EnforcedMessageSizeLimit v) h
  | total_data_limit v =>
    refine ⟨_, rfl, ?_⟩
    by_cases hv : v = U128MAX
    · simp only [SchemaBuilder.total_data_limit, if_pos hv]
      exact h
    · simp only [SchemaBuilder.total_data_limit, if_neg hv]
      exact wf_mapInsert b.runes (Rune.TotalDataLimit v) h
  | enforced_total_data_limit v =>
    refine ⟨_, rfl, ?_⟩
    by_cases hv : v = U128MAX
    · simp only [SchemaBuilder.enforced_total_data_limit, if_pos hv]
      exact h
    · simp only [SchemaBuilder.enforced_total_data_limit, if_neg hv]
      exact wf_mapInsert b.runes (Rune.EnforcedTotalDataLimit v) h
  | crypto_period begin_ end_ =>
    refine ⟨_, rfl, ?_⟩
    by_cases hbe : begin_ ≥ end_
    · simp only [SchemaBuilder.crypto_period, if_pos hbe]
      exact h
    · simp only [SchemaBuilder.crypto_period, if_neg hbe]
      exact wf_mapInsert b.runes (Rune.CryptoPeriod begin_ end_) h
  | quantum_resistance q =>
    cases q with
    | true => exact ⟨_, rfl, wf_mapInsert b.runes Rune.QuantumResistance h⟩
    | false => exact ⟨_, rfl, wf_mapRemove b.runes _ h⟩
  | software_side_channel_resistance r =>
    obtain ⟨m', hm', hwf⟩ := pushSoftware_wf b.runes r h
    exact ⟨⟨m'⟩,
      by simp [applyOp, SchemaBuilder.software_side_channel_resistance, hm'], hwf⟩
  | hardware_side_channel_resistance r =>
    obtain ⟨m', hm', hwf⟩ := pushHardware_wf b.runes r h
    exact ⟨⟨m'⟩,
      by simp [applyOp, SchemaBuilder.hardware_side_channel_resistance, hm'], hwf⟩
  | isolated l =>
    exact ⟨_, rfl, wf_mapInsert b.runes (Rune.Isolated l) h⟩
  | certification c =>
    obtain ⟨m', hm', hwf⟩ := pushCertifications_wf b.runes c h
    exact ⟨⟨m'⟩, by simp [applyOp, SchemaBuilder.certification, hm'], hwf⟩

theorem applyOps_wf (ops : List BuilderOp) (b : SchemaBuilder) (h : WF b.runes) :
    ∃ b', applyOps b ops = some b' ∧ WF b'.runes := by
  induction ops generalizing b with
  | nil => exact ⟨b, rfl, h⟩
  | cons op ops ih =>
    obtain ⟨b1, h1, hw1⟩ := applyOp_wf b op h
    obtain ⟨b2, h2, hw2⟩ := ih b1 hw1
    exact ⟨b2, by simp [applyOps, h1, h2], hw2⟩

theorem wf_new : WF SchemaBuilder.new.runes := by decide

theorem build_indices_sorted (b : SchemaBuilder) (h : WF b.runes) :
    (b.build.runes.map Rune.variant_index).Pairwise (fun x y => x < y) := by
  have hmap : b.build.runes.map Rune.variant_index = b.runes.map Prod.fst := by
    simp only [SchemaBuilder.build, List.map_map]
    exact List.map_congr_left fun p hp => h.2 p hp
  rw [hmap]
  exact (List.pairwise_map).mpr h.1

theorem contains_iff_mem {α : Type} [DecidableEq α] (l : List α) (x : α) :
    l.contains x = true ↔ x ∈ l := by
  simp [List.contains]

theorem unionByValue_nil {α : Type} [DecidableEq α] (acc : List α) :
    unionByValue acc [] = acc := rfl

theorem unionByValue_cons {α : Type} [DecidableEq α] (acc : List α) (x : α)
    (items : List α) :
    unionByValue acc (x :: items) =
      unionByValue (if acc.contains x then acc else acc ++ [x]) items := rfl

theorem nodup_unionByValue {α : Type} [DecidableEq α] (items acc : List α)
    (h : acc.Nodup) : (unionByValue acc items).Nodup := by
  induction items generalizing acc with
  | nil => exact h
  | cons x items ih =>
    rw [unionByValue_cons]
    by_cases hx : acc.contains x
    · rw [if_pos hx]
      exact ih acc h
    · rw [if_neg hx]
      refine ih _ (List.Nodup.append h (List.nodup_singleton x) ?_)
      intro a ha hb
      rw [List.mem_singleton] at hb
      subst hb
      exact hx ((contains_iff_mem acc a).mpr ha)

theorem mem_unionByValue {α : Type} [DecidableEq α] (items acc : List α) (y : α) :
    y ∈ unionByValue acc items ↔ y ∈ acc ∨ y ∈ items := by
  induction items generalizing acc with
  | nil => simp [unionByValue_nil]
  | cons x items ih =>
    rw [unionByValue_cons]
    by_cases hx : acc.contains x
    · rw [if_pos hx, ih]
      have hmem : x ∈ acc := (contains_iff_mem acc x).mp hx
      simp only [List.mem_cons]
      constructor
      · rintro (h | h)
        · exact Or.inl h
        · exact Or.inr (Or.inr h)
      · rintro (h | rfl | h)
        · exact Or.inl h
        · exact Or.inl hmem
        · exact Or.inr h
    · rw [if_neg hx, ih]
      simp only [List.mem_append, List.mem_singleton, List.mem_cons]
      tauto

theorem vector_fold {α : Type} [DecidableEq α]
    (push : RuneMap → α → Option RuneMap) (mk : List α → Rune) (idx : Nat)
    (opOf : α → BuilderOp)
    (hmk_idx : ∀ vec, (mk vec).variant_index = idx)
    (hpush_some : ∀ m i vec, mapLookup m idx = some (mk vec) →
      push m i = some (mapInsert m idx (mk (if vec.contains i then vec else vec ++ [i]))))
    (hop : ∀ (b : SchemaBuilder) (i : α),
      applyOp b (opOf i) = (push b.runes i).map SchemaBuilder.mk)
    (items : List α) (b : SchemaBuilder) (vec : List α)
    (h : WF b.runes) (hl : mapLookup b.runes idx = some (mk vec)) :
    ∃ b', applyOps b (items.map opOf) = some b' ∧ WF b'.runes ∧
      mapLookup b'.runes idx = some (mk (unionByValue vec items)) ∧
      ∀ k, k ≠ idx → mapLookup b'.runes k = mapLookup b.runes k := by
  induction items generalizing b vec with
  | nil =>
    refine ⟨b, rfl, h, ?_, fun _ _ => rfl⟩
    rw [unionByValue_nil]
    exact hl
  | cons x items ih =>
    have hpush := hpush_some b.runes x vec hl
    have hwf1 : WF (mapInsert b.runes idx
        (mk (if vec.contains x then vec else vec ++ [x]))) := by
      have hw := wf_mapInsert b.runes (mk (if vec.contains x then vec else vec ++ [x])) h
      rwa [hmk_idx] at hw
    obtain ⟨b', h1, h2, h3, h4⟩ :=
      ih ⟨mapInsert b.runes idx (mk (if vec.contains x then vec else vec ++ [x]))⟩
        (if vec.contains x then vec else vec ++ [x]) hwf1 (mapLookup_mapInsert_self _ _ _)
    refine ⟨b', ?_, h2, ?_, ?_⟩
    · simp only [List.map_cons, applyOps, hop, hpush, Option.map_some']
      exact h1
    · rwa [unionByValue_cons]
    · intro k hk
      rw [h4 k hk]
      exact mapLookup_mapInsert_ne _ _ _ _ hk

theorem vector_fold_from_none {α : Type} [DecidableEq α]
    (push : RuneMap → α → Option RuneMap) (mk : List α → Rune) (idx : Nat)
    (opOf : α → BuilderOp)
    (hmk_idx : ∀ vec, (mk vec).variant_index = idx)
    (hpush_none : ∀ m i, mapLookup m idx = none →
      push m i = some (mapInsert m idx (mk [i])))
    (hpush_some : ∀ m i vec, mapLookup m idx = some (mk vec) →
      push m i = some (mapInsert m idx (mk (if vec.contains i then vec else vec ++ [i]))))
    (hop : ∀ (b : SchemaBuilder) (i : α),
      applyOp b (opOf i) = (push b.runes i).map SchemaBuilder.mk)
    (x : α) (items : List α) (b : SchemaBuilder)
    (h : WF b.runes) (hl : mapLookup b.runes idx = none) :
    ∃ b', applyOps b ((x :: items).map opOf) = some b' ∧ WF b'.runes ∧
      mapLookup b'.runes idx = some (mk (unionByValue [] (x :: items))) ∧
      ∀ k, k ≠ idx → mapLookup b'.runes k = mapLookup b.runes k := by
  have hpush := hpush_none b.runes x hl
  have hwf1 : WF (mapInsert b.runes idx (mk [x])) := by
    have hw := wf_mapInsert b.runes (mk [x]) h
    rwa [hmk_idx] at hw
  obtain ⟨b', h1, h2, h3, h4⟩ :=
    vector_fold push mk idx opOf hmk_idx hpush_some hop items
      ⟨mapInsert b.runes idx (mk [x])⟩ [x] hwf1 (mapLookup_mapInsert_self _ _ _)
  refine ⟨b', ?_, h2, ?_, ?_⟩
  · simp only [List.map_cons, applyOps, hop, hpush, Option.map_some']
    exact h1
  · rw [unionByValue_cons]
    simpa using h3
  · intro k hk
    rw [h4 k hk]
    exact mapLookup_mapInsert_ne _ _ _ _ hk


theorem applyOp_untouched (b b' : SchemaBuilder) (op : BuilderOp) (k : Nat)
    (hwf : WF b.runes)
    (hk : k = 2 ∨ k = 3 ∨ k = 4)
    (hop : touchesDefaultKind op = false)
    (happ : applyOp b op = some b') :
    mapLookup b'.runes k = mapLookup b.runes k := by
  cases op with
  | public_private_key_pair =>
    simp only [applyOp] at happ
    obtain rfl := Option.some.inj happ
    exact mapLookup_mapInsert_ne _ _ _ _ (by simp only [Rune.variant_index]; omega)
  | confidentiality e =>
    simp only [applyOp] at happ
    obtain rfl := Option.some.inj happ
    cases e with
    | error s => rfl
    | ok t => exact mapLookup_mapInsert_ne _ _ _ _ (by simp only [Rune.variant_index]; omega)
  | security_bits v =>
    simp only [applyOp] at happ
    obtain rfl := Option.some.inj happ
    exact mapLookup_mapInsert_ne _ _ _ _ (by simp only [Rune.variant_index]; omega)
  | message_limit v => simp [touchesDefaultKind] at hop
  | enforced_message_limit v => simp [touchesDefaultKind] at hop
  | message_size_limit v => simp [touchesDefaultKind] at hop
  | enforced_message_size_limit v => simp [touchesDefaultKind] at hop
  | total_data_limit v => simp [touchesDefaultKind] at hop
  | enforced_total_data_limit v => simp [touchesDefaultKind] at hop
  | crypto_period begin_ end_ =>
    simp only [applyOp] at happ
    obtain rfl := Option.some.inj happ
    by_cases hbe : begin_ ≥ end_
    · simp only [SchemaBuilder.crypto_period, if_pos hbe]
    · simp only [SchemaBuilder.crypto_period, if_neg hbe]
      exact mapLookup_mapInsert_ne _ _ _ _ (by simp only [Rune.variant_index]; omega)
  | quantum_resistance q =>
    simp only [applyOp] at happ
    obtain rfl := Option.some.inj happ
    cases q with
    | true => exact mapLookup_mapInsert_ne _ _ _ _ (by simp only [Rune.variant_index]; omega)
    | false => exact mapLookup_mapRemove_ne _ _ _ (by simp only [Rune.variant_index]; omega)
  | software_side_channel_resistance r =>
    simp only [applyOp, SchemaBuilder.software_side_channel_resistance] at happ
    cases hl : mapLookup b.runes 13 with
    | none =>
      rw [pushSoftware_none _ _ hl] at happ
      simp only [Option.map_some'] at happ
      obtain rfl := Option.some.inj happ
      exact mapLookup_mapInsert_ne _ _ _ _ (by omega)
    | some r0 =>
      obtain ⟨vec, rfl⟩ :=
        eq_software_of_variant_index r0 (hwf.2 (13, r0) (mem_of_mapLookup _ _ _ hl))
      rw [pushSoftware_some _ _ _ hl] at happ
      simp only [Option.map_some'] at happ
      obtain rfl := Option.some.inj happ
      exact mapLookup_mapInsert_ne _ _ _ _ (by omega)
  | hardware_side_channel_resistance r =>
    simp only [applyOp, SchemaBuilder.hardware_side_channel_resistance] at happ
    cases hl : mapLookup b.runes 14 with
    | none =>
      rw [pushHardware_none _ _ hl] at happ
      simp only [Option.map_some'] at happ
      obtain rfl := Option.some.inj happ
      exact mapLookup_mapInsert_ne _ _ _ _ (by omega)
    | some r0 =>
      obtain ⟨vec, rfl⟩ :=
        eq_hardware_of_variant_index r0 (hwf.2 (14, r0) (mem_of_mapLookup _ _ _ hl))
      rw [pushHardware_some _ _ _ hl] at happ
      simp only [Option.map_some'] at happ
      obtain rfl := Option.some.inj happ
      exact mapLookup_mapInsert_ne _ _ _ _ (by omega)
  | isolated l =>
    simp only [applyOp] at happ
    obtain rfl := Option.some.inj happ
    exact mapLookup_mapInsert_ne _ _ _ _ (by simp only [Rune.variant_index]; omega)
  | certification c =>
    simp only [applyOp, SchemaBuilder.certification] at happ
    cases hl : mapLookup b.runes 16 with
    | none =>
      rw [pushCertifications_none _ _ hl] at happ
      simp only [Option.map_some'] at happ
      obtain rfl := Option.some.inj happ
      exact mapLookup_mapInsert_ne _ _ _ _ (by omega)
    | some r0 =>
      obtain ⟨vec, rfl⟩ :=
        eq_certifications_of_variant_index r0 (hwf.2 (16, r0) (mem_of_mapLookup _ _ _ hl))
      rw [pushCertifications_some _ _ _ hl] at happ
      simp only [Option.map_some'] at happ
      obtain rfl := Option.some.inj happ
      exact mapLookup_mapInsert_ne _ _ _ _ (by omega)

theorem applyOps_untouched (ops : List BuilderOp) (b : SchemaBuilder)
    (hwf : WF b.runes)
    (hops : ∀ op ∈ ops, touchesDefaultKind op = false)
    (k : Nat) (hk : k = 2 ∨ k = 3 ∨ k = 4) :
    ∃ b', applyOps b ops = some b' ∧ WF b'.runes ∧
      mapLookup b'.runes k = mapLookup b.runes k := by
  induction ops generalizing b with
  | nil => exact ⟨b, rfl, hwf, rfl⟩
  | cons op ops ih =>
    obtain ⟨b1, h1, hw1⟩ := applyOp_wf b op hwf
    obtain ⟨b2, h2, hw2, hlook⟩ :=
      ih b1 hw1 (fun o ho => hops o (List.mem_cons_of_mem _ ho))
    refine ⟨b2, ?_, hw2, ?_⟩
    · simp [applyOps, h1, h2]
    · rw [hlook]
      exact applyOp_untouched b b1 op k hwf hk
        (hops op (List.mem_cons_self _ _)) h1


/-- C5: A fresh `SchemaBuilder` is pre-populated with exactly the three
default properties — message limit 2^16, message size limit 2^16 and total
data limit 2^32 — and any sequence of setter calls that never writes to the
three limit families leaves exactly those three defaults, which appear in the
built `Schema`. -/
theorem c5_default_baseline (ops : List BuilderOp)
    (hops : ∀ op ∈ ops, touchesDefaultKind op = false) :
    SchemaBuilder.new.build =
      ⟨[Rune.MessageLimit (2 ^ 16), Rune.MessageSizeLimit (2 ^ 16),
        Rune.TotalDataLimit (2 ^ 32)]⟩ ∧
    ∃ b, applyOps SchemaBuilder.new ops = some b ∧
      mapLookup b.runes 2 = some (Rune.MessageLimit (2 ^ 16)) ∧
      mapLookup b.runes 3 = some (Rune.MessageSizeLimit (2 ^ 16)) ∧
      mapLookup b.runes 4 = some (Rune.TotalDataLimit (2 ^ 32)) ∧
      Rune.MessageLimit (2 ^ 16) ∈ b.build.runes ∧
      Rune.MessageSizeLimit (2 ^ 16) ∈ b.build.runes ∧
      Rune.TotalDataLimit (2 ^ 32) ∈ b.build.runes := by
  refine ⟨by decide, ?_⟩
  obtain ⟨b2, h2, hw2, hl2⟩ :=
    applyOps_untouched ops SchemaBuilder.new wf_new hops 2 (by omega)
  obtain ⟨b3, h3, hw3, hl3⟩ :=
    applyOps_untouched ops SchemaBuilder.new wf_new hops 3 (by omega)
  obtain ⟨b4, h4, hw4, hl4⟩ :=
    applyOps_untouched ops SchemaBuilder.new wf_new hops 4 (by omega)
  rw [h2] at h3 h4
  obtain rfl := Option.some.inj h3
  obtain rfl := Option.some.inj h4
  have hv2 : mapLookup b2.runes 2 = some (Rune.MessageLimit (2 ^ 16)) :=
    hl2.trans (by decide)
  have hv3 : mapLookup b2.runes 3 = some (Rune.MessageSizeLimit (2 ^ 16)) :=
    hl3.trans (by decide)
  have hv4 : mapLookup b2.runes 4 = some (Rune.TotalDataLimit (2 ^ 32)) :=
    hl4.trans (by decide)
  exact ⟨b2, h2, hv2, hv3, hv4,
    (mem_build_iff b2 hw2 _).mpr hv2,
    (mem_build_iff b2 hw2 _).mpr hv3,
    (mem_build_iff b2 hw2 _).mpr hv4⟩

theorem c5_default_baseline_witness :
    SchemaBuilder.new.build =
      ⟨[Rune.MessageLimit (2 ^ 16), Rune.MessageSizeLimit (2 ^ 16),
        Rune.TotalDataLimit (2 ^ 32)]⟩ ∧
    ∃ b, applyOps SchemaBuilder.new [BuilderOp.security_bits 7] = some b ∧
      mapLookup b.runes 2 = some (Rune.MessageLimit (2 ^ 16)) ∧
      mapLookup b.runes 3 = some (Rune.MessageSizeLimit (2 ^ 16)) ∧
      mapLookup b.runes 4 = some (Rune.TotalDataLimit (2 ^ 32)) ∧
      Rune.MessageLimit (2 ^ 16) ∈ b.build.runes ∧
      Rune.MessageSizeLimit (2 ^ 16) ∈ b.build.runes ∧
      Rune.TotalDataLimit (2 ^ 32) ∈ b.build.runes :=
  c5_default_baseline [BuilderOp.security_bits 7] (by decide)

/-- C10: Starting from `SchemaBuilder::new`, every sequence of setter calls
succeeds without reaching the `unreachable!()` branch of `push_to_vec_rune!`
(embedded as `none`), the internal map binds each numeric key only to a rune
whose variant index equals that key, and `build()` emits the runes in
strictly increasing variant-index order (so no two runes share an index). -/
theorem c10_wf_no_unreachable (ops : List BuilderOp) :
    ∃ b, applyOps SchemaBuilder.new ops = some b ∧
      (∀ p ∈ b.runes, p.2.variant_index = p.1) ∧
      (b.build.runes.map Rune.variant_index).Pairwise (fun x y => x < y) := by
  obtain ⟨b, happ, hwf⟩ := applyOps_wf ops SchemaBuilder.new wf_new
  exact ⟨b, happ, hwf.2, build_indices_sorted b hwf⟩

/-- C9: `quantum_resistance(true)` inserts the `QuantumResistance` rune,
`quantum_resistance(false)` removes it when present and is a no-op when
absent, and calling true then false leaves no `QuantumResistance` rune in
the built schema. -/
theorem c9_quantum_resistance_gate (b : SchemaBuilder) (h : WF b.runes) :
    mapLookup (b.quantum_resistance true).runes 12 = some Rune.QuantumResistance ∧
    mapLookup (b.quantum_resistance false).runes 12 = none ∧
    (mapLookup b.runes 12 = none → b.quantum_resistance false = b) ∧
    Rune.QuantumResistance ∉
      ((b.quantum_resistance true).quantum_resistance false).build.runes := by
  refine ⟨mapLookup_mapInsert_self _ _ _, mapLookup_mapRemove_self _ _ h.1, ?_, ?_⟩
  · intro hnone
    show SchemaBuilder.mk (mapRemove b.runes 12) = b
    rw [mapRemove_of_lookup_none _ _ hnone]
  · intro hmem
    have hwf1 : WF (b.quantum_resistance true).runes :=
      wf_mapInsert b.runes Rune.QuantumResistance h
    have hwf2 : WF ((b.quantum_resistance true).quantum_resistance false).runes :=
      wf_mapRemove _ 12 hwf1
    have hlook := (mem_build_iff _ hwf2 Rune.QuantumResistance).mp hmem
    exact Option.noConfusion
      ((mapLookup_mapRemove_self (b.quantum_resistance true).runes 12 hwf1.1).symm.trans hlook)

theorem c9_quantum_resistance_gate_witness :
    mapLookup (SchemaBuilder.new.quantum_resistance true).runes 12 =
      some Rune.QuantumResistance ∧
    mapLookup (SchemaBuilder.new.quantum_resistance false).runes 12 = none ∧
    (mapLookup SchemaBuilder.new.runes 12 = none →
      SchemaBuilder.new.quantum_resistance false = SchemaBuilder.new) ∧
    Rune.QuantumResistance ∉
      ((SchemaBuilder.new.quantum_resistance true).quantum_resistance false).build.runes :=
  c9_quantum_resistance_gate SchemaBuilder.new wf_new

/-- C8: Scalar setters are last-write-wins: calling `security_bits` with v1
then v2 leaves exactly `SecurityBits v2` for that kind in the built schema,
calling `isolated` with l1 then l2 leaves exactly `Isolated l2`, and calling
`public_private_key_pair` twice leaves the key-topology rune present. -/
theorem c8_scalar_last_write_wins (b : SchemaBuilder) (h : WF b.runes)
    (v1 v2 : Nat) (l1 l2 : IsolationLevel) :
    (Rune.SecurityBits v2 ∈ ((b.security_bits v1).security_bits v2).build.runes ∧
      ∀ x, Rune.SecurityBits x ∈ ((b.security_bits v1).security_bits v2).build.runes →
        x = v2) ∧
    (Rune.Isolated l2 ∈ ((b.isolated l1).isolated l2).build.runes ∧
      ∀ x, Rune.Isolated x ∈ ((b.isolated l1).isolated l2).build.runes → x = l2) ∧
    Rune.PublicPrivateKeyPair ∈
      (b.public_private_key_pair.public_private_key_pair).build.runes := by
  have hwfs : WF ((b.security_bits v1).security_bits v2).runes :=
    wf_mapInsert _ (Rune.SecurityBits v2) (wf_mapInsert _ (Rune.SecurityBits v1) h)
  have hwfi : WF ((b.isolated l1).isolated l2).runes :=
    wf_mapInsert _ (Rune.Isolated l2) (wf_mapInsert _ (Rune.Isolated l1) h)
  have hwfp : WF (b.public_private_key_pair.public_private_key_pair).runes :=
    wf_mapInsert _ Rune.PublicPrivateKeyPair (wf_mapInsert _ Rune.PublicPrivateKeyPair h)
  refine ⟨⟨?_, ?_⟩, ⟨?_, ?_⟩, ?_⟩
  · exact (mem_build_iff _ hwfs _).mpr (mapLookup_mapInsert_self _ _ _)
  · intro x hx
    have hlook := (mem_build_iff _ hwfs _).mp hx
    have hcomb := (mapLookup_mapInsert_self
      (mapInsert b.runes 1 (Rune.SecurityBits v1)) 1 (Rune.SecurityBits v2)).symm.trans hlook
    simp only [Option.some.injEq, Rune.SecurityBits.injEq] at hcomb
    exact hcomb.symm
  · exact (mem_build_iff _ hwfi _).mpr (mapLookup_mapInsert_self _ _ _)
  · intro x hx
    have hlook := (mem_build_iff _ hwfi _).mp hx
    have hcomb := (mapLookup_mapInsert_self
      (mapInsert b.runes 15 (Rune.Isolated l1)) 15 (Rune.Isolated l2)).symm.trans hlook
    simp only [Option.some.injEq, Rune.Isolated.injEq] at hcomb
    exact hcomb.symm
  · exact (mem_build_iff _ hwfp _).mpr (mapLookup_mapInsert_self _ _ _)

theorem c8_scalar_last_write_wins_witness :
    (Rune.SecurityBits 2 ∈
        ((SchemaBuilder.new.security_bits 1).security_bits 2).build.runes ∧
      ∀ x, Rune.SecurityBits x ∈
        ((SchemaBuilder.new.security_bits 1).security_bits 2).build.runes → x = 2) ∧
    (Rune.Isolated IsolationLevel.DiscreteCpu ∈
        ((SchemaBuilder.new.isolated IsolationLevel.SameProcess).isolated
          IsolationLevel.DiscreteCpu).build.runes ∧
      ∀ x, Rune.Isolated x ∈
        ((SchemaBuilder.new.isolated IsolationLevel.SameProcess).isolated
          IsolationLevel.DiscreteCpu).build.runes → x = IsolationLevel.DiscreteCpu) ∧
    Rune.PublicPrivateKeyPair ∈
      (SchemaBuilder.new.public_private_key_pair.public_private_key_pair).build.runes :=
  c8_scalar_last_write_wins SchemaBuilder.new wf_new 1 2
    IsolationLevel.SameProcess IsolationLevel.DiscreteCpu

/-- C7: `crypto_period(begin, end)` fails with `InvalidCryptoPeriod` exactly
when begin >= end; when begin < end it succeeds and the built schema carries
exactly the `CryptoPeriod` rune with that begin and that end, unclamped. -/
theorem c7_crypto_period (b : SchemaBuilder) (begin_ end_ : Int) (h : WF b.runes) :
    (begin_ ≥ end_ → b.crypto_period begin_ end_ =
      (Except.error (Error.InvalidCryptoPeriod
        ("Begin " ++ toString begin_ ++ " must be before end " ++ toString end_)), b)) ∧
    (begin_ < end_ →
      (b.crypto_period begin_ end_).1 = Except.ok () ∧
      Rune.CryptoPeriod begin_ end_ ∈ (b.crypto_period begin_ end_).2.build.runes ∧
      ∀ b0 e0, Rune.CryptoPeriod b0 e0 ∈ (b.crypto_period begin_ end_).2.build.runes →
        b0 = begin_ ∧ e0 = end_) := by
  constructor
  · intro hbe
    simp only [SchemaBuilder.crypto_period, if_pos hbe]
  · intro hlt
    have hbe : ¬ begin_ ≥ end_ := not_le.mpr hlt
    have hwf1 : WF (b.crypto_period begin_ end_).2.runes := by
      simp only [SchemaBuilder.crypto_period, if_neg hbe]
      exact wf_mapInsert b.runes (Rune.CryptoPeriod begin_ end_) h
    have hself : mapLookup (b.crypto_period begin_ end_).2.runes 11 =
        some (Rune.CryptoPeriod begin_ end_) := by
      simp only [SchemaBuilder.crypto_period, if_neg hbe]
      exact mapLookup_mapInsert_self _ _ _
    refine ⟨?_, (mem_build_iff _ hwf1 _).mpr hself, ?_⟩
    · simp only [SchemaBuilder.crypto_period, if_neg hbe]
    · intro b0 e0 hx
      have hlook := (mem_build_iff _ hwf1 (Rune.CryptoPeriod b0 e0)).mp hx
      have hcomb := hself.symm.trans hlook
      simp only [Option.some.injEq, Rune.CryptoPeriod.injEq] at hcomb
      exact ⟨hcomb.1.symm, hcomb.2.symm⟩

theorem c7_crypto_period_witness :
    ((0 : Int) ≥ 1 → SchemaBuilder.new.crypto_period 0 1 =
      (Except.error (Error.InvalidCryptoPeriod
        ("Begin " ++ toString (0 : Int) ++ " must be before end " ++ toString (1 : Int))),
        SchemaBuilder.new)) ∧
    ((0 : Int) < 1 →
      (SchemaBuilder.new.crypto_period 0 1).1 = Except.ok () ∧
      Rune.CryptoPeriod 0 1 ∈ (SchemaBuilder.new.crypto_period 0 1).2.build.runes ∧
      ∀ b0 e0, Rune.CryptoPeriod b0 e0 ∈
          (SchemaBuilder.new.crypto_period 0 1).2.build.runes →
        b0 = 0 ∧ e0 = 1) :=
  c7_crypto_period SchemaBuilder.new 0 1 wf_new

/-- C6: Every fallible builder method (the six limit setters, `crypto_period`
and `confidentiality`) validates before mutating: whenever it returns an
error, the builder state it hands back is exactly the state it received. -/
theorem c6_validate_before_mutate (b : SchemaBuilder) (v : Nat)
    (t? : Except String Int) (begin_ end_ : Int) (e : Error) :
    ((b.message_limit v).1 = Except.error e → (b.message_limit v).2 = b) ∧
    ((b.enforced_message_limit v).1 = Except.error e →
      (b.enforced_message_limit v).2 = b) ∧
    ((b.message_size_limit v).1 = Except.error e → (b.message_size_limit v).2 = b) ∧
    ((b.enforced_message_size_limit v).1 = Except.error e →
      (b.enforced_message_size_limit v).2 = b) ∧
    ((b.total_data_limit v).1 = Except.error e → (b.total_data_limit v).2 = b) ∧
    ((b.enforced_total_data_limit v).1 = Except.error e →
      (b.enforced_total_data_limit v).2 = b) ∧
    ((b.crypto_period begin_ end_).1 = Except.error e →
      (b.crypto_period begin_ end_).2 = b) ∧
    ((b.confidentiality t?).1 = Except.error e → (b.confidentiality t?).2 = b) := by
  refine ⟨?_, ?_, ?_, ?_, ?_, ?_, ?_, ?_⟩
  · intro herr
    by_cases hv : v = U128MAX
    · simp only [SchemaBuilder.message_limit, if_pos hv]
    · simp only [SchemaBuilder.message_limit, if_neg hv] at herr
      exact Except.noConfusion herr
  · intro herr
    by_cases hv : v = U128MAX
    · simp only [SchemaBuilder.enforced_message_limit, if_pos hv]
    · simp only [SchemaBuilder.enforced_message_limit, if_neg hv] at herr
      exact Except.noConfusion herr
  · intro herr
    by_cases hv : v = U128MAX
    · simp only [SchemaBuilder.message_size_limit, if_pos hv]
    · simp only [SchemaBuilder.message_size_limit, if_neg hv] at herr
      exact Except.noConfusion herr
  · intro herr
    by_cases hv : v = U128MAX
    · simp only [SchemaBuilder.enforced_message_size_limit, if_pos hv]
    · simp only [SchemaBuilder.enforced_message_size_limit, if_neg hv] at herr
      exact Except.noConfusion herr
  · intro herr
    by_cases hv : v = U128MAX
    · simp only [SchemaBuilder.total_data_limit, if_pos hv]
    · simp only [SchemaBuilder.total_data_limit, if_neg hv] at herr
      exact Except.noConfusion herr
  · intro herr
    by_cases hv : v = U128MAX
    · simp only [SchemaBuilder.enforced_total_data_limit, if_pos hv]
    · simp only [SchemaBuilder.enforced_total_data_limit, if_neg hv] at herr
      exact Except.noConfusion herr
  · intro herr
    by_cases hbe : begin_ ≥ end_
    · simp only [SchemaBuilder.crypto_period, if_pos hbe]
    · simp only [SchemaBuilder.crypto_period, if_neg hbe] at herr
      exact Except.noConfusion herr
  · intro herr
    cases t? with
    | error s => rfl
    | ok t =>
      simp only [SchemaBuilder.confidentiality] at herr
      exact Except.noConfusion herr

theorem c6_validate_before_mutate_witness :
    (SchemaBuilder.new.message_limit U128MAX).2 = SchemaBuilder.new ∧
    (SchemaBuilder.new.crypto_period 5 3).2 = SchemaBuilder.new ∧
    (SchemaBuilder.new.confidentiality (Except.error "clock failure")).2 =
      SchemaBuilder.new :=
  ⟨(c6_validate_before_mutate SchemaBuilder.new U128MAX (Except.error "clock failure")
      5 3 (Error.InvalidMessageLimit "Message limit cannot be unbounded")).1 rfl,
   (c6_validate_before_mutate SchemaBuilder.new U128MAX (Except.error "clock failure")
      5 3 (Error.InvalidCryptoPeriod
        ("Begin " ++ toString (5 : Int) ++ " must be before end " ++
          toString (3 : Int)))).2.2.2.2.2.2.1 rfl,
   (c6_validate_before_mutate SchemaBuilder.new U128MAX (Except.error "clock failure")
      5 3 (Error.InternalError ("Time error:" ++ "clock failure"))).2.2.2.2.2.2.2 rfl⟩

/-- C2: Supplying the `Unbounded` sentinel (`u128::MAX`) to any of the six
limit setters yields the error of the matching limit family
(`InvalidMessageLimit`, `InvalidMessageSizeLimit`, `InvalidTotalDataLimit`)
with the builder state unchanged, while every non-sentinel value succeeds and
overwrites the rune stored for that limit family. -/
theorem c2_unbounded_rejected (b : SchemaBuilder) (v : Nat) (hv : v ≠ U128MAX) :
    b.message_limit U128MAX =
      (Except.error (Error.InvalidMessageLimit "Message limit cannot be unbounded"), b) ∧
    b.enforced_message_limit U128MAX =
      (Except.error (Error.InvalidMessageLimit "Message limit cannot be unbounded"), b) ∧
    b.message_size_limit U128MAX =
      (Except.error (Error.InvalidMessageSizeLimit
        "Message size limit cannot be unbounded"), b) ∧
    b.enforced_message_size_limit U128MAX =
      (Except.error (Error.InvalidMessageSizeLimit
        "Message size limit cannot be unbounded"), b) ∧
    b.total_data_limit U128MAX =
      (Except.error (Error.InvalidTotalDataLimit
        "Total data limit cannot be unbounded"), b) ∧
    b.enforced_total_data_limit U128MAX =
      (Except.error (Error.InvalidTotalDataLimit
        "Total data limit cannot be unbounded"), b) ∧
    ((b.message_limit v).1 = Except.ok () ∧
      mapLookup (b.message_limit v).2.runes 2 = some (Rune.MessageLimit v)) ∧
    ((b.enforced_message_limit v).1 = Except.ok () ∧
      mapLookup (b.enforced_message_limit v).2.runes 2 =
        some (Rune.EnforcedMessageLimit v)) ∧
    ((b.message_size_limit v).1 = Except.ok () ∧
      mapLookup (b.message_size_limit v).2.runes 3 = some (Rune.MessageSizeLimit v)) ∧
    ((b.enforced_message_size_limit v).1 = Except.ok () ∧
      mapLookup (b.enforced_message_size_limit v).2.runes 3 =
        some (Rune.EnforcedMessageSizeLimit v)) ∧
    ((b.total_data_limit v).1 = Except.ok () ∧
      mapLookup (b.total_data_limit v).2.runes 4 = some (Rune.TotalDataLimit v)) ∧
    ((b.enforced_total_data_limit v).1 = Except.ok () ∧
      mapLookup (b.enforced_total_data_limit v).2.runes 4 =
        some (Rune.EnforcedTotalDataLimit v)) := by
  refine ⟨rfl, rfl, rfl, rfl, rfl, rfl, ⟨?_, ?_⟩, ⟨?_, ?_⟩, ⟨?_, ?_⟩, ⟨?_, ?_⟩,
    ⟨?_, ?_⟩, ⟨?_, ?_⟩⟩
  · simp only [SchemaBuilder.message_limit, if_neg hv]
  · simp only [SchemaBuilder.message_limit, if_neg hv]
    exact mapLookup_mapInsert_self _ _ _
  · simp only [SchemaBuilder.enforced_message_limit, if_neg hv]
  · simp only [SchemaBuilder.enforced_message_limit, if_neg hv]
    exact mapLookup_mapInsert_self _ _ _
  · simp only [SchemaBuilder.message_size_limit, if_neg hv]
  · simp only [SchemaBuilder.message_size_limit, if_neg hv]
    exact mapLookup_mapInsert_self _ _ _
  · simp only [SchemaBuilder.enforced_message_size_limit, if_neg hv]
  · simp only [SchemaBuilder.enforced_message_size_limit, if_neg hv]
    exact mapLookup_mapInsert_self _ _ _
  · simp only [SchemaBuilder.total_data_limit, if_neg hv]
  · simp only [SchemaBuilder.total_data_limit, if_neg hv]
    exact mapLookup_mapInsert_self _ _ _
  · simp only [SchemaBuilder.enforced_total_data_limit, if_neg hv]
  · simp only [SchemaBuilder.enforced_total_data_limit, if_neg hv]
    exact mapLookup_mapInsert_self _ _ _

theorem c2_unbounded_rejected_witness :
    SchemaBuilder.new.message_limit U128MAX =
      (Except.error (Error.InvalidMessageLimit "Message limit cannot be unbounded"),
        SchemaBuilder.new) ∧
    SchemaBuilder.new.enforced_message_limit U128MAX =
      (Except.error (Error.InvalidMessageLimit "Message limit cannot be unbounded"),
        SchemaBuilder.new) ∧
    SchemaBuilder.new.message_size_limit U128MAX =
      (Except.error (Error.InvalidMessageSizeLimit
        "Message size limit cannot be unbounded"), SchemaBuilder.new) ∧
    SchemaBuilder.new.enforced_message_size_limit U128MAX =
      (Except.error (Error.InvalidMessageSizeLimit
        "Message size limit cannot be unbounded"), SchemaBuilder.new) ∧
    SchemaBuilder.new.total_data_limit U128MAX =
      (Except.error (Error.InvalidTotalDataLimit
        "Total data limit cannot be unbounded"), SchemaBuilder.new) ∧
    SchemaBuilder.new.enforced_total_data_limit U128MAX =
      (Except.error (Error.InvalidTotalDataLimit
        "Total data limit cannot be unbounded"), SchemaBuilder.new) ∧
    ((SchemaBuilder.new.message_limit 5).1 = Except.ok () ∧
      mapLookup (SchemaBuilder.new.message_limit 5).2.runes 2 =
        some (Rune.MessageLimit 5)) ∧
    ((SchemaBuilder.new.enforced_message_limit 5).1 = Except.ok () ∧
      mapLookup (SchemaBuilder.new.enforced_message_limit 5).2.runes 2 =
        some (Rune.EnforcedMessageLimit 5)) ∧
    ((SchemaBuilder.new.message_size_limit 5).1 = Except.ok () ∧
      mapLookup (SchemaBuilder.new.message_size_limit 5).2.runes 3 =
        some (Rune.MessageSizeLimit 5)) ∧
    ((SchemaBuilder.new.enforced_message_size_limit 5).1 = Except.ok () ∧
      mapLookup (SchemaBuilder.new.enforced_message_size_limit 5).2.runes 3 =
        some (Rune.EnforcedMessageSizeLimit 5)) ∧
    ((SchemaBuilder.new.total_data_limit 5).1 = Except.ok () ∧
      mapLookup (SchemaBuilder.new.total_data_limit 5).2.runes 4 =
        some (Rune.TotalDataLimit 5)) ∧
    ((SchemaBuilder.new.enforced_total_data_limit 5).1 = Except.ok () ∧
      mapLookup (SchemaBuilder.new.enforced_total_data_limit 5).2.runes 4 =
        some (Rune.EnforcedTotalDataLimit 5)) :=
  c2_unbounded_rejected SchemaBuilder.new 5 (by decide)


/-- C4: Each vector-valued setter accumulates, for its kind, exactly one rune
whose vector is the duplicate-free union (by value equality) of all items
ever passed to that setter: the first call creates a one-element vector and
each later call appends its item only when no equal item is already
present. -/
theorem c4_vector_setters_union
    (si : List SoftwareSideChannelResistance)
    (hi : List HardwareSideChannelResistance)
    (ci : List SecurityCertification)
    (hsi : si ≠ []) (hhi : hi ≠ []) (hci : ci ≠ []) :
    (∃ b vec, applyOps SchemaBuilder.new
        (si.map BuilderOp.software_side_channel_resistance) = some b ∧
      Rune.SoftwareSideChannelResistance vec ∈ b.build.runes ∧
      (∀ vec', Rune.SoftwareSideChannelResistance vec' ∈ b.build.runes → vec' = vec) ∧
      vec = unionByValue [] si ∧ vec.Nodup ∧ (∀ x, x ∈ vec ↔ x ∈ si)) ∧
    (∃ b vec, applyOps SchemaBuilder.new
        (hi.map BuilderOp.hardware_side_channel_resistance) = some b ∧
      Rune.HardwareSideChannelResistance vec ∈ b.build.runes ∧
      (∀ vec', Rune.HardwareSideChannelResistance vec' ∈ b.build.runes → vec' = vec) ∧
      vec = unionByValue [] hi ∧ vec.Nodup ∧ (∀ x, x ∈ vec ↔ x ∈ hi)) ∧
    (∃ b vec, applyOps SchemaBuilder.new
        (ci.map BuilderOp.certification) = some b ∧
      Rune.Certifications vec ∈ b.build.runes ∧
      (∀ vec', Rune.Certifications vec' ∈ b.build.runes → vec' = vec) ∧
      vec = unionByValue [] ci ∧ vec.Nodup ∧ (∀ x, x ∈ vec ↔ x ∈ ci)) := by
  refine ⟨?_, ?_, ?_⟩
  · cases si with
    | nil => exact absurd rfl hsi
    | cons x rest =>
      obtain ⟨b', happ, hwf', hlook, hrest⟩ :=
        vector_fold_from_none pushSoftwareSideChannelResistance
          Rune.SoftwareSideChannelResistance 13
          BuilderOp.software_side_channel_resistance
          (fun _ => rfl) pushSoftware_none pushSoftware_some (fun _ _ => rfl)
          x rest SchemaBuilder.new wf_new (by decide)
      refine ⟨b', unionByValue [] (x :: rest), happ,
        (mem_build_iff b' hwf' _).mpr hlook, ?_, rfl,
        nodup_unionByValue _ _ List.nodup_nil, ?_⟩
      · intro vec' hv'
        have hl' := (mem_build_iff b' hwf' _).mp hv'
        have hcomb := hlook.symm.trans hl'
        simp only [Option.some.injEq,
          Rune.SoftwareSideChannelResistance.injEq] at hcomb
        exact hcomb.symm
      · intro y
        rw [mem_unionByValue]
        simp
  · cases hi with
    | nil => exact absurd rfl hhi
    | cons x rest =>
      obtain ⟨b', happ, hwf', hlook, hrest⟩ :=
        vector_fold_from_none pushHardwareSideChannelResistance
          Rune.HardwareSideChannelResistance 14
          BuilderOp.hardware_side_channel_resistance
          (fun _ => rfl) pushHardware_none pushHardware_some (fun _ _ => rfl)
          x rest SchemaBuilder.new wf_new (by decide)
      refine ⟨b', unionByValue [] (x :: rest), happ,
        (mem_build_iff b' hwf' _).mpr hlook, ?_, rfl,
        nodup_unionByValue _ _ List.nodup_nil, ?_⟩
      · intro vec' hv'
        have hl' := (mem_build_iff b' hwf' _).mp hv'
        have hcomb := hlook.symm.trans hl'
        simp only [Option.some.injEq,
          Rune.HardwareSideChannelResistance.injEq] at hcomb
        exact hcomb.symm
      · intro y
        rw [mem_unionByValue]
        simp
  · cases ci with
    | nil => exact absurd rfl hci
    | cons x rest =>
      obtain ⟨b', happ, hwf', hlook, hrest⟩ :=
        vector_fold_from_none pushCertifications
          Rune.Certifications 16 BuilderOp.certification
          (fun _ => rfl) pushCertifications_none pushCertifications_some
          (fun _ _ => rfl)
          x rest SchemaBuilder.new wf_new (by decide)
      refine ⟨b', unionByValue [] (x :: rest), happ,
        (mem_build_iff b' hwf' _).mpr hlook, ?_, rfl,
        nodup_unionByValue _ _ List.nodup_nil, ?_⟩
      · intro vec' hv'
        have hl' := (mem_build_iff b' hwf' _).mp hv'
        have hcomb := hlook.symm.trans hl'
        simp only [Option.some.injEq, Rune.Certifications.injEq] at hcomb
        exact hcomb.symm
      · intro y
        rw [mem_unionByValue]
        simp

theorem c4_vector_setters_union_witness :
    (∃ b vec, applyOps SchemaBuilder.new
        ([SoftwareSideChannelResistance.ConstantTime,
          SoftwareSideChannelResistance.ConstantTime].map
          BuilderOp.software_side_channel_resistance) = some b ∧
      Rune.SoftwareSideChannelResistance vec ∈ b.build.runes ∧
      (∀ vec', Rune.SoftwareSideChannelResistance vec' ∈ b.build.runes → vec' = vec) ∧
      vec = unionByValue [] [SoftwareSideChannelResistance.ConstantTime,
        SoftwareSideChannelResistance.ConstantTime] ∧
      vec.Nodup ∧ (∀ x, x ∈ vec ↔ x ∈ [SoftwareSideChannelResistance.ConstantTime,
        SoftwareSideChannelResistance.ConstantTime])) ∧
    (∃ b vec, applyOps SchemaBuilder.new
        ([HardwareSideChannelResistance.PowerAnalysisResistant].map
          BuilderOp.hardware_side_channel_resistance) = some b ∧
      Rune.HardwareSideChannelResistance vec ∈ b.build.runes ∧
      (∀ vec', Rune.HardwareSideChannelResistance vec' ∈ b.build.runes → vec' = vec) ∧
      vec = unionByValue [] [HardwareSideChannelResistance.PowerAnalysisResistant] ∧
      vec.Nodup ∧
      (∀ x, x ∈ vec ↔ x ∈ [HardwareSideChannelResistance.PowerAnalysisResistant])) ∧
    (∃ b vec, applyOps SchemaBuilder.new
        ([SecurityCertification.mk].map BuilderOp.certification) = some b ∧
      Rune.Certifications vec ∈ b.build.runes ∧
      (∀ vec', Rune.Certifications vec' ∈ b.build.runes → vec' = vec) ∧
      vec = unionByValue [] [SecurityCertification.mk] ∧ vec.Nodup ∧
      (∀ x, x ∈ vec ↔ x ∈ [SecurityCertification.mk])) :=
  c4_vector_setters_union
    [SoftwareSideChannelResistance.ConstantTime,
     SoftwareSideChannelResistance.ConstantTime]
    [HardwareSideChannelResistance.PowerAnalysisResistant]
    [SecurityCertification.mk] (by decide) (by decide) (by decide)

/-- C1 counterexample: calling `message_limit(5)` then `enforced_message_limit(7)`
(both valid values) does not yield a schema containing both runes, contrary
to the claim: `MessageLimit` and `EnforcedMessageLimit` are distinct Rust
variant discriminants yet share variant index 2, so the second call replaces
the first and the built schema holds no `MessageLimit` rune. -/
theorem c1_counterexample :
    (SchemaBuilder.new.message_limit 5).1 = Except.ok () ∧
    ((SchemaBuilder.new.message_limit 5).2.enforced_message_limit 7).1 =
      Except.ok () ∧
    (Rune.MessageLimit 5).variant_index = (Rune.EnforcedMessageLimit 7).variant_index ∧
    Rune.EnforcedMessageLimit 7 ∈
      ((SchemaBuilder.new.message_limit 5).2.enforced_message_limit 7).2.build.runes ∧
    Rune.MessageLimit 5 ∉
      ((SchemaBuilder.new.message_limit 5).2.enforced_message_limit 7).2.build.runes :=
  ⟨rfl, rfl, rfl, by decide, by decide⟩

/-- C1 amended: kinds are identified by `variant_index`, under which each
limit family shares a single index with its enforced counterpart; the built
schema holds at most one rune per variant index, a setter replaces the
existing rune exactly when the two share a variant index, and
`message_limit(v)` followed by `enforced_message_limit(w)` (both valid)
yields a schema containing `EnforcedMessageLimit w` and no `MessageLimit`
rune at all. -/
theorem c1_amended (v w : Nat) (hv : v ≠ U128MAX) (hw : w ≠ U128MAX) :
    (∀ ops, ∃ b, applyOps SchemaBuilder.new ops = some b ∧
      (b.build.runes.map Rune.variant_index).Pairwise (fun x y => x < y)) ∧
    ∃ b1 b2, SchemaBuilder.new.message_limit v = (Except.ok (), b1) ∧
      b1.enforced_message_limit w = (Except.ok (), b2) ∧
      Rune.EnforcedMessageLimit w ∈ b2.build.runes ∧
      ∀ x, Rune.MessageLimit x ∉ b2.build.runes := by
  constructor
  · intro ops
    obtain ⟨b, happ, hwf⟩ := applyOps_wf ops SchemaBuilder.new wf_new
    exact ⟨b, happ, build_indices_sorted b hwf⟩
  · have hwf2 : WF (mapInsert (mapInsert SchemaBuilder.new.runes 2
        (Rune.MessageLimit v)) 2 (Rune.EnforcedMessageLimit w)) :=
      wf_mapInsert _ (Rune.EnforcedMessageLimit w)
        (wf_mapInsert _ (Rune.MessageLimit v) wf_new)
    refine ⟨⟨mapInsert SchemaBuilder.new.runes 2 (Rune.MessageLimit v)⟩,
      ⟨mapInsert (mapInsert SchemaBuilder.new.runes 2 (Rune.MessageLimit v)) 2
        (Rune.EnforcedMessageLimit w)⟩, ?_, ?_, ?_, ?_⟩
    · simp only [SchemaBuilder.message_limit, if_neg hv, Rune.variant_index]
    · simp only [SchemaBuilder.enforced_message_limit, if_neg hw, Rune.variant_index]
    · exact (mem_build_iff
        ⟨mapInsert (mapInsert SchemaBuilder.new.runes 2 (Rune.MessageLimit v)) 2
          (Rune.EnforcedMessageLimit w)⟩ hwf2 (Rune.EnforcedMessageLimit w)).mpr
        (mapLookup_mapInsert_self
          (mapInsert SchemaBuilder.new.runes 2 (Rune.MessageLimit v)) 2
          (Rune.EnforcedMessageLimit w))
    · intro x hx
      have hlook := (mem_build_iff
        ⟨mapInsert (mapInsert SchemaBuilder.new.runes 2 (Rune.MessageLimit v)) 2
          (Rune.EnforcedMessageLimit w)⟩ hwf2 (Rune.MessageLimit x)).mp hx
      have hcomb := (mapLookup_mapInsert_self
        (mapInsert SchemaBuilder.new.runes 2 (Rune.MessageLimit v)) 2
        (Rune.EnforcedMessageLimit w)).symm.trans hlook
      simp at hcomb

theorem c1_amended_witness :
    (∀ ops, ∃ b, applyOps SchemaBuilder.new ops = some b ∧
      (b.build.runes.map Rune.variant_index).Pairwise (fun x y => x < y)) ∧
    ∃ b1 b2, SchemaBuilder.new.message_limit 5 = (Except.ok (), b1) ∧
      b1.enforced_message_limit 7 = (Except.ok (), b2) ∧
      Rune.EnforcedMessageLimit 7 ∈ b2.build.runes ∧
      ∀ x, Rune.MessageLimit x ∉ b2.build.runes :=
  c1_amended 5 7 (by decide) (by decide)

/-- C3 counterexample: equality on `SecurityPropertySet` and on `Schema` is
the derived componentwise list equality, which is order-sensitive: two
property sets holding the same properties in opposite orders (a permutation)
compare unequal. -/
theorem c3_counterexample :
    (SecurityProperties.SecurityPropertySet.new
        [SecurityProperties.SecurityProperty.PublicPrivateKeyPair,
         SecurityProperties.SecurityProperty.QuantumResistance] ≠
      SecurityProperties.SecurityPropertySet.new
        [SecurityProperties.SecurityProperty.QuantumResistance,
         SecurityProperties.SecurityProperty.PublicPrivateKeyPair]) ∧
    List.Perm
      [SecurityProperties.SecurityProperty.PublicPrivateKeyPair,
       SecurityProperties.SecurityProperty.QuantumResistance]
      [SecurityProperties.SecurityProperty.QuantumResistance,
       SecurityProperties.SecurityProperty.PublicPrivateKeyPair] ∧
    (Schema.mk [Rune.PublicPrivateKeyPair, Rune.QuantumResistance] ≠
      Schema.mk [Rune.QuantumResistance, Rune.PublicPrivateKeyPair]) ∧
    List.Perm [Rune.PublicPrivateKeyPair, Rune.QuantumResistance]
      [Rune.QuantumResistance, Rune.PublicPrivateKeyPair] :=
  ⟨by decide, List.Perm.swap _ _ _, by decide, List.Perm.swap _ _ _⟩

/-- C3 amended: equality is order-sensitive list equality on the stored
vector, but any two schemas produced by builder call sequences whose rune
lists are permutations of one another are equal, because `build` always
emits the canonical strictly increasing variant-index order. -/
theorem c3_amended (ops1 ops2 : List BuilderOp) (b1 b2 : SchemaBuilder)
    (h1 : applyOps SchemaBuilder.new ops1 = some b1)
    (h2 : applyOps SchemaBuilder.new ops2 = some b2)
    (hperm : b1.build.runes.Perm b2.build.runes) :
    b1.build = b2.build := by
  obtain ⟨b1', h1', hw1⟩ := applyOps_wf ops1 SchemaBuilder.new wf_new
  rw [h1] at h1'
  obtain rfl := Option.some.inj h1'
  obtain ⟨b2', h2', hw2⟩ := applyOps_wf ops2 SchemaBuilder.new wf_new
  rw [h2] at h2'
  obtain rfl := Option.some.inj h2'
  have hs1 : b1.build.runes.Pairwise
      (fun a b => a.variant_index < b.variant_index) :=
    (List.pairwise_map).mp (build_indices_sorted b1 hw1)
  have hs2 : b2.build.runes.Pairwise
      (fun a b => a.variant_index < b.variant_index) :=
    (List.pairwise_map).mp (build_indices_sorted b2 hw2)
  haveI : IsAntisymm Rune (fun a b => a.variant_index < b.variant_index) :=
    ⟨fun a b hab hba => absurd hba (by omega)⟩
  have e := List.eq_of_perm_of_sorted hperm hs1 hs2
  exact congrArg Schema.mk e

theorem c3_amended_witness :
    (SchemaBuilder.mk [(1, Rune.SecurityBits 1), (2, Rune.MessageLimit (2 ^ 16)),
      (3, Rune.MessageSizeLimit (2 ^ 16)), (4, Rune.TotalDataLimit (2 ^ 32)),
      (15, Rune.Isolated IsolationLevel.SameProcess)]).build =
    (SchemaBuilder.mk [(1, Rune.SecurityBits 1), (2, Rune.MessageLimit (2 ^ 16)),
      (3, Rune.MessageSizeLimit (2 ^ 16)), (4, Rune.TotalDataLimit (2 ^ 32)),
      (15, Rune.Isolated IsolationLevel.SameProcess)]).build :=
  c3_amended
    [BuilderOp.security_bits 1, BuilderOp.isolated IsolationLevel.SameProcess]
    [BuilderOp.isolated IsolationLevel.SameProcess, BuilderOp.security_bits 1]
    _ _ (by decide) (by decide) (List.Perm.refl _)

end Runes

end Sigaldry
